import Mathlib

/-!
Verification of the generic I2C IO-expander core of `node-i2c-io-expanders`.

The definitions below are a shallow embedding of `src/ioExpander.ts` (class
`IOExpander`) and `src/promise-queue.ts` (class `PromiseQueue`).  Machine
numbers of the source (JavaScript numbers used as bitmasks, always in the
range `0 .. 2^16 - 1` here) are embedded as `Nat`; the JS expression
`current & ~(1 << pin)` is embedded as `Nat.ldiff current (1 <<< pin)`,
which agrees with the 32-bit JS semantics on all values occurring in this
program.  Fallible operations return `Except String`, carrying the message
of the `Error` thrown by the source.  Hardware I/O performed by the chip
adapters is represented explicitly: reads become an `Except String Nat`
argument (the resolved or rejected result of `_readState`), writes become
`HwAction` values listed in the order the source issues them.
-/

namespace IOExpanderModel

/-- Pin direction constant `IOExpander.DIR_UNDEF = -1`. -/
def DIR_UNDEF : Int := -1

/-- Pin direction constant `IOExpander.DIR_IN = 1`. -/
def DIR_IN : Int := 1

/-- Pin direction constant `IOExpander.DIR_OUT = 0`. -/
def DIR_OUT : Int := 0

/-- The mutable instance fields of class `IOExpander` that the verified
operations touch.  `pins` is the abstract field `_pins` (8 or 16). -/
structure ExpanderState where
  pins : Nat
  directions : List Int
  inputPinBitmask : Nat
  inputPinBitmaskAssigned : Nat
  inverted : Nat
  currentState : Nat
  currentlyPolling : Bool
  queuePollCount : Nat
deriving Repr, DecidableEq

/-- An `'input'` event emitted by the expander: `{ pin, value }`. -/
structure InputEvent where
  pin : Nat
  value : Bool
deriving Repr, DecidableEq

/-- Hardware accesses issued by an operation, in issue order.
`enqueuePollReq` records that a poll was placed on the promise queue
(`_enqueuePoll`), whose read itself is modelled by `_poll` below. -/
inductive HwAction where
  | writeDirection (mask : Nat)
  | writeInterruptControl (mask : Nat)
  | writeState (value : Nat)
  | enqueuePollReq (noEmit : Option Nat) (ignoreMaxPollCount : Bool)
deriving Repr, DecidableEq

/-- `IOExpander#_setStatePin`: set (`value = true`) or clear one bit of a
bitmask.  The source clears with `current & ~(1 << pin)`. -/
def setStatePin (current : Nat) (pin : Nat) (value : Bool) : Nat :=
  if value then
    current ||| (1 <<< pin)
  else
    Nat.ldiff current (1 <<< pin)

/-- `IOExpander.PinState` enum values: `Off = 0`, `On = 1`, `Toggle = 2`. -/
def PinState_Off : Nat := 0

/-- `IOExpander.PinState.On = 1`. -/
def PinState_On : Nat := 1

/-- `IOExpander.PinState.Toggle = 2`. -/
def PinState_Toggle : Nat := 2

/-- One iteration of the `pinUpdates` loop of `IOExpander#_setNewState`:
unpack `pinUpdate` into a 4-bit pin number and 4-bit pin state, then
toggle, set or reset that pin of `currentState`. -/
def applyPinUpdate (currentState : Nat) (pinUpdate : Nat) : Nat :=
  let pin : Nat := (pinUpdate >>> 4) &&& 0x0F
  let pinState : Nat := pinUpdate &&& 0x0F
  let state : Bool :=
    if pinState = PinState_Toggle then
      ! (decide ((currentState >>> pin) % 2 ≠ 0))
    else
      decide (pinState = PinState_On)
  setStatePin currentState pin state

/-- `IOExpander#_setNewState`: apply the requested packed pin updates to
`_currentState`, XOR the whole state with `_inverted`, OR in
`_inputPinBitmask`, and write the result via `_writeState`.  Returns the
mutated state together with the bitmask handed to `_writeState`. -/
def setNewState (s : ExpanderState) (pinUpdates : Option (List Nat)) :
    ExpanderState × Nat :=
  let cur : Nat :=
    match pinUpdates with
    | some us => us.foldl applyPinUpdate s.currentState
    | none => s.currentState
  let newIcState : Nat := (cur ^^^ s.inverted) ||| s.inputPinBitmask
  ({ s with currentState := cur }, newIcState)

/-- One iteration of the change loop of `IOExpander#_poll` for a single
`pin`, acting on the accumulated `(currentState, emitted events)` pair. -/
def pollStep (inputPinsThatChanged readState : Nat) (noEmit : Option Nat)
    (acc : Nat × List InputEvent) (pin : Nat) : Nat × List InputEvent :=
  if (inputPinsThatChanged >>> pin) % 2 ≠ 0 then
    let value : Bool := decide ((readState >>> pin) % 2 ≠ 0)
    (setStatePin acc.1 pin value,
     if noEmit ≠ some pin then acc.2 ++ [⟨pin, value⟩] else acc.2)
  else
    acc

/-- The `inputPinsThatChanged` bitmask that `_poll` computes from the raw
register value `raw`:
`((currentState XOR (raw XOR inverted)) AND inputPinBitmask) AND inputPinBitmaskAssigned`. -/
def pollChangedMask (s : ExpanderState) (raw : Nat) : Nat :=
  ((s.currentState ^^^ (raw ^^^ s.inverted)) &&& s.inputPinBitmask) &&& s.inputPinBitmaskAssigned

/-- `IOExpander#_poll`: guard against a poll already in flight, read the
chip (`readResult` is the resolved or rejected value of `_readState`),
XOR with `_inverted`, diff against `_currentState` masked by
`_inputPinBitmask` and `_inputPinBitmaskAssigned`, update changed bits
and emit events (suppressing `noEmit`), and resolve with the updated
`_currentState`.  Returns (state, emitted events, promise result). -/
def poll (s : ExpanderState) (readResult : Except String Nat)
    (noEmit : Option Nat) : ExpanderState × List InputEvent × Except String Nat :=
  if s.currentlyPolling then
    (s, [], .error "Another poll is in progress.")
  else
    match readResult with
    | .error e => ({ s with currentlyPolling := false }, [], .error e)
    | .ok raw =>
      let readState : Nat := raw ^^^ s.inverted
      let inputPinsThatChanged : Nat := pollChangedMask s raw
      let (cur, evs) :=
        if inputPinsThatChanged ≠ 0 then
          (List.range s.pins).foldl (pollStep inputPinsThatChanged readState noEmit)
            (s.currentState, [])
        else
          (s.currentState, [])
      ({ s with currentState := cur, currentlyPolling := false }, evs, .ok cur)

/-- `IOExpander#setPin`: range check, direction check, then one packed
pin update (On/Off when a value is supplied, Toggle otherwise) through
`_setNewState`, issuing exactly one `_writeState`.  The source guard is
`pin < 0 || pin > this._pins - 1`; pins are naturals here, so only the
upper bound remains. -/
def setPin (s : ExpanderState) (pin : Nat) (value : Option Bool) :
    Except String (ExpanderState × List HwAction) :=
  if s.pins - 1 < pin then
    .error "Pin out of range."
  else if s.directions.getD pin DIR_UNDEF ≠ DIR_OUT then
    .error "Pin is not defined as output."
  else
    let pinState : Nat :=
      match value with
      | some v => if v then PinState_On else PinState_Off
      | none => PinState_Toggle
    let r := setNewState s (some [(pin <<< 4) ||| (pinState &&& 0x0F)])
    .ok (r.1, [.writeState r.2])

/-- The new bit `setAllPins` resolves for `pin`: a boolean broadcast, or
the corresponding bit of a supplied mask (`(value & (1 << pin)) !== 0`). -/
def resolveAllPinsBit (value : Bool ⊕ Nat) (pin : Nat) : Bool :=
  match value with
  | .inl b => b
  | .inr m => decide ((m &&& (1 <<< pin)) ≠ 0)

/-- `IOExpander#setAllPins`: no-op when no pin has direction `DIR_OUT`
(`indexOf(DIR_OUT) < 0`); otherwise batch one packed On/Off update per
output pin into a single `_setNewState` call (one hardware write). -/
def setAllPins (s : ExpanderState) (value : Bool ⊕ Nat) :
    ExpanderState × List HwAction :=
  if DIR_OUT ∈ s.directions then
    let pinUpdates : List Nat :=
      (List.range s.pins).filterMap (fun pin =>
        if s.directions.getD pin DIR_UNDEF = DIR_OUT then
          let pinState : Nat :=
            if resolveAllPinsBit value pin then PinState_On else PinState_Off
          some ((pin <<< 4) ||| (pinState &&& 0x0F))
        else
          none)
    let r := setNewState s (some pinUpdates)
    (r.1, [.writeState r.2])
  else
    (s, [])

/-- `IOExpander#inputPin`: range check, then set the inversion bit, the
hardware input bit, the assigned-input bit and direction `DIR_IN`, write
direction and interrupt control, write the state (`_setNewState()` with
no pin updates), and enqueue a poll suppressing this pin's event. -/
def inputPin (s : ExpanderState) (pin : Nat) (inverted : Bool) :
    Except String (ExpanderState × List HwAction) :=
  if s.pins - 1 < pin then
    .error "Pin out of range"
  else
    let s1 := { s with
      inverted := setStatePin s.inverted pin inverted,
      inputPinBitmask := setStatePin s.inputPinBitmask pin true,
      inputPinBitmaskAssigned := setStatePin s.inputPinBitmaskAssigned pin true,
      directions := s.directions.set pin DIR_IN }
    let r := setNewState s1 none
    .ok (r.1, [.writeDirection s1.inputPinBitmask,
               .writeInterruptControl s1.inputPinBitmask,
               .writeState r.2,
               .enqueuePollReq (some pin) true])

/-- `IOExpander#outputPin`: range check, then set the inversion bit,
clear the hardware input and assigned-input bits, set direction
`DIR_OUT`, write direction and interrupt control; when `initialValue` is
supplied additionally run `_setPinInternal` (one `_writeState`). -/
def outputPin (s : ExpanderState) (pin : Nat) (inverted : Bool)
    (initialValue : Option Bool) :
    Except String (ExpanderState × List HwAction) :=
  if s.pins - 1 < pin then
    .error "Pin out of range"
  else
    let s1 := { s with
      inverted := setStatePin s.inverted pin inverted,
      inputPinBitmask := setStatePin s.inputPinBitmask pin false,
      inputPinBitmaskAssigned := setStatePin s.inputPinBitmaskAssigned pin false,
      directions := s.directions.set pin DIR_OUT }
    match initialValue with
    | none =>
      .ok (s1, [.writeDirection s1.inputPinBitmask,
                .writeInterruptControl s1.inputPinBitmask])
    | some v =>
      let pinState : Nat := if v then PinState_On else PinState_Off
      let r := setNewState s1 (some [(pin <<< 4) ||| (pinState &&& 0x0F)])
      .ok (r.1, [.writeDirection s1.inputPinBitmask,
                 .writeInterruptControl s1.inputPinBitmask,
                 .writeState r.2])

/-- `IOExpander#getPinValue`: range check, then the stored bit of
`_currentState` (the queued task `(this._currentState >> pin) % 2 !== 0`). -/
def getPinValue (s : ExpanderState) (pin : Nat) : Except String Bool :=
  if s.pins - 1 < pin then
    .error "Pin out of range."
  else
    .ok (decide ((s.currentState >>> pin) % 2 ≠ 0))

/-- The argument of `IOExpander#initialize` as the JS caller can pass it:
a boolean, a number (embedded as `Int`), `undefined`, or any other value. -/
inductive InitArg where
  | boolean (b : Bool)
  | num (n : Int)
  | undef
  | other
deriving Repr, DecidableEq

/-- `IOExpander#initialize`: reset directions to all-`DIR_UNDEF`,
`_currentState` to 0, `_inputPinBitmask` to all ones and
`_inputPinBitmaskAssigned` to 0, then resolve `initialHardwareState`
(`true`/`undefined` ↦ all ones, `false` ↦ 0, in-range number ↦ itself,
anything else throws) and hand it to `_initializeChip`.  Returns the
mutated state and the value given to `_initializeChip` (or the error). -/
def initializeExpander (s : ExpanderState) (a : InitArg) :
    ExpanderState × Except String Nat :=
  let s1 := { s with
    directions := List.replicate s.pins DIR_UNDEF,
    currentState := 0,
    inputPinBitmask := 2 ^ s.pins - 1,
    inputPinBitmaskAssigned := 0 }
  match a with
  | .boolean true => (s1, .ok (2 ^ s.pins - 1))
  | .boolean false => (s1, .ok 0)
  | .undef => (s1, .ok (2 ^ s.pins - 1))
  | .num n =>
    if n < 0 ∨ (2 ^ s.pins - 1 : Int) < n then
      (s1, .error "InitialHardwareState bitmask out of range.")
    else
      (s1, .ok n.toNat)
  | .other => (s1, .error "InitialHardwareState bitmask out of range.")

/-- The synchronous prefix of `IOExpander#_enqueuePoll`: reject with
"Too many polls in queue." when the bound `3 + _pins` is reached and the
ignore flag is not set, otherwise increment `_queuePollCount`. -/
def enqueuePollCheck (s : ExpanderState) (ignoreMaxPollCount : Bool) :
    Except String ExpanderState :=
  if ¬ignoreMaxPollCount ∧ 3 + s.pins ≤ s.queuePollCount then
    .error "Too many polls in queue."
  else
    .ok { s with queuePollCount := s.queuePollCount + 1 }

/-- The complete lifecycle of one `doPoll`/`_enqueuePoll` request: the
bound check and counter increment, then (once the queue services it) the
`_poll` body, then the counter decrement performed on both success and
failure of the queued task. -/
def doPollLifecycle (s : ExpanderState) (ignoreMaxPollCount : Bool)
    (readResult : Except String Nat) (noEmit : Option Nat) :
    ExpanderState × List InputEvent × Except String Nat :=
  match enqueuePollCheck s ignoreMaxPollCount with
  | .error e => (s, [], .error e)
  | .ok s1 =>
    let r := poll s1 readResult noEmit
    ({ r.1 with queuePollCount := r.1.queuePollCount - 1 }, r.2.1, r.2.2)

/-- The synchronous submission phase of `n` concurrent `doPoll()` calls
made without awaiting: each runs `_enqueuePoll`'s bound check and counter
increment before any queued poll executes.  Returns the state and the
immediate acceptance/rejection of each call, in submission order. -/
def submitPolls : ExpanderState → Nat → ExpanderState × List (Except String Unit)
  | s, 0 => (s, [])
  | s, n + 1 =>
    match enqueuePollCheck s false with
    | .error e =>
      let r := submitPolls s n
      (r.1, .error e :: r.2)
    | .ok s1 =>
      let r := submitPolls s1 n
      (r.1, .ok () :: r.2)

/-- Drain a sequence of `doPoll` lifecycles (each read resolving or
rejecting as given) one after another, as the promise queue executes
them. -/
def drainPolls (s : ExpanderState) (reads : List (Except String Nat)) :
    ExpanderState :=
  reads.foldl (fun t r => (doPollLifecycle t false r none).1) s

/-- The state a fresh `IOExpander` instance holds after its constructor:
nothing inverted, every pin off, no polls queued. -/
def freshState (pins : Nat) : ExpanderState :=
  { pins := pins
    directions := []
    inputPinBitmask := 0
    inputPinBitmaskAssigned := 0
    inverted := 0
    currentState := 0
    currentlyPolling := false
    queuePollCount := 0 }

/-- `initialize(m)` on a fresh instance followed immediately by
`doPoll()`, where the hardware read of the poll resolves with `raw`.
Returns what the `doPoll` promise resolves with. -/
def initThenPoll (pins m raw : Nat) : Except String Nat :=
  let r := initializeExpander (freshState pins) (.num (m : Int))
  match r.2 with
  | .error e => .error e
  | .ok _ => (doPollLifecycle r.1 false (.ok raw) none).2.2

/-- Well-formedness of an expander state as maintained by the source:
`_pins` is 8 or 16, `_directions` has one entry per pin, and
`_inputPinBitmask` only holds bits of existing pins. -/
def WF (s : ExpanderState) : Prop :=
  (s.pins = 8 ∨ s.pins = 16) ∧
  s.directions.length = s.pins ∧
  s.inputPinBitmask < 2 ^ s.pins

/-! ### The promise queue (`src/promise-queue.ts`) -/

deriving instance DecidableEq for Except

/-- A unit of work submitted to the `PromiseQueue`: a caller id and the
result its promise eventually settles with. -/
structure QueuedTask (ε α : Type) where
  id : Nat
  result : Except ε α
deriving Repr, DecidableEq

/-- Observable queue events: a unit of work starting, and its result
being delivered to its own caller (`item.resolve` / `item.reject`). -/
inductive QueueEvent (ε α : Type) where
  | start (id : Nat)
  | deliver (id : Nat) (result : Except ε α)
deriving Repr, DecidableEq

/-- The state of a `PromiseQueue`: the pending FIFO, the `working` flag,
and the optional maximum queue length. -/
structure PQState (ε α : Type) where
  queue : List (QueuedTask ε α)
  working : Bool
  maxQueueLength : Option Nat
deriving Repr, DecidableEq

/-- `PromiseQueue#enqueue`: instant rejection (`false`, nothing queued)
when a maximum length is configured and reached, otherwise push the task
at the back of the FIFO. -/
def pqEnqueue {ε α : Type} (st : PQState ε α) (t : QueuedTask ε α) :
    PQState ε α × Bool :=
  match st.maxQueueLength with
  | some m =>
    if m ≤ st.queue.length then (st, false)
    else ({ st with queue := st.queue ++ [t] }, true)
  | none => ({ st with queue := st.queue ++ [t] }, true)

/-- The drain performed by `PromiseQueue#dequeue`: nothing starts while
`working`; otherwise the head task is shifted, started, its result is
delivered to its own caller, `working` is cleared in the `finally`
handler, and `dequeue` recurses on the rest. -/
def dequeueRun {ε α : Type} : Bool → List (QueuedTask ε α) → List (QueueEvent ε α)
  | true, _ => []
  | false, [] => []
  | false, t :: rest =>
    .start t.id :: .deliver t.id t.result :: dequeueRun false rest

/-! ### The process-wide GPIO registration (`IOExpander._allInstancesUsedGpios`) -/

/-- Look a GPIO line up in the registration table, returning its use
count when registered. -/
def regLookup : List (Nat × Nat) → Nat → Option Nat
  | [], _ => none
  | (l, c) :: rest, line => if l = line then some c else regLookup rest line

/-- Overwrite the use count of a registered GPIO line. -/
def regSet : List (Nat × Nat) → Nat → Nat → List (Nat × Nat)
  | [], line, c => [(line, c)]
  | (l, c0) :: rest, line, c =>
    if l = line then (l, c) :: rest else (l, c0) :: regSet rest line c

/-- Delete a GPIO line from the registration table. -/
def regRemove : List (Nat × Nat) → Nat → List (Nat × Nat)
  | [], _ => []
  | (l, c) :: rest, line =>
    if l = line then rest else (l, c) :: regRemove rest line

/-- `IOExpander#enableInterrupt`, registry part: fails when this
instance already holds a line; reuses and increments an existing
registration; otherwise creates the edge watch with use count 1.
Returns the instance's new held line and the new table. -/
def enableInterrupt (gpio : Option Nat) (reg : List (Nat × Nat))
    (gpioPin : Nat) : Except String (Option Nat × List (Nat × Nat)) :=
  match gpio with
  | some _ => .error "GPIO interrupt already enabled."
  | none =>
    match regLookup reg gpioPin with
    | some c => .ok (some gpioPin, regSet reg gpioPin (c + 1))
    | none => .ok (some gpioPin, reg ++ [(gpioPin, 1)])

/-- `IOExpander#disableInterrupt`, registry part: no-op when no line is
held; otherwise decrement the use count (`useCount--`, then compare with
0 as the source does) and, exactly when it reaches zero, delete the
registration and unexport the GPIO.  Returns the instance's held line
(always cleared), the new table, and whether the GPIO was unexported. -/
def disableInterrupt (gpio : Option Nat) (reg : List (Nat × Nat)) :
    Option Nat × List (Nat × Nat) × Bool :=
  match gpio with
  | none => (none, reg, false)
  | some gpioPin =>
    match regLookup reg gpioPin with
    | some c =>
      if c - 1 = 0 then (none, regRemove reg gpioPin, true)
      else (none, regSet reg gpioPin (c - 1), false)
    | none => (none, reg, false)

/-! ### Bit-level helper lemmas -/

/-- The source's bit test `(n >> p) % 2 !== 0` agrees with `Nat.testBit`. -/
theorem shiftRight_mod_two_ne_iff (n p : Nat) :
    ((n >>> p) % 2 ≠ 0) ↔ n.testBit p = true := by
  rw [Nat.testBit_to_div_mod, Nat.shiftRight_eq_div_pow]
  rcases Nat.mod_two_eq_zero_or_one (n / 2 ^ p) with h | h <;> simp [h]

/-- Boolean form of `shiftRight_mod_two_ne_iff`. -/
theorem decide_shiftRight_mod_two (n p : Nat) :
    (decide ((n >>> p) % 2 ≠ 0)) = n.testBit p := by
  cases h : n.testBit p <;> simp [shiftRight_mod_two_ne_iff, h]

/-- Bits of `_setStatePin`: the selected pin gets the new value, every
other bit is untouched. -/
theorem setStatePin_testBit (c q : Nat) (b : Bool) (p : Nat) :
    (setStatePin c q b).testBit p = if p = q then b else c.testBit p := by
  have h1 : (1 <<< q) = 2 ^ q := by rw [Nat.shiftLeft_eq, one_mul]
  cases b with
  | true =>
    show (c ||| 1 <<< q).testBit p = _
    rw [Nat.testBit_lor, h1]
    by_cases hpq : p = q
    · subst hpq; simp
    · simp [Nat.testBit_two_pow_of_ne (Ne.symm hpq), hpq]
  | false =>
    show (Nat.ldiff c (1 <<< q)).testBit p = _
    rw [Nat.testBit_ldiff, h1]
    by_cases hpq : p = q
    · subst hpq; simp
    · simp [Nat.testBit_two_pow_of_ne (Ne.symm hpq), hpq]

/-- Bits of the nibble mask `0x0F`. -/
theorem testBit_fifteen (i : Nat) : (15 : Nat).testBit i = decide (i < 4) := by
  rcases Nat.lt_or_ge i 4 with h | h
  · interval_cases i <;> decide
  · have h16 : (16 : Nat) ≤ 2 ^ i := by
      calc (16 : Nat) = 2 ^ 4 := by norm_num
      _ ≤ 2 ^ i := Nat.pow_le_pow_right (by norm_num) h
    have h15 : (15 : Nat) < 2 ^ i := lt_of_lt_of_le (by norm_num) h16
    simp [Nat.testBit_eq_false_of_lt h15, Nat.not_lt.2 h]

/-- Unpacking the pin number from a packed `(pin << 4) | pinState` byte. -/
theorem packed_decode_pin (pin v : Nat) (hpin : pin < 16) (hv : v < 16) :
    ((((pin <<< 4) ||| v) >>> 4) &&& 0x0F) = pin := by
  apply Nat.eq_of_testBit_eq
  intro i
  have h16 : (16 : Nat) ≤ 2 ^ (4 + i) := by
    calc (16 : Nat) = 2 ^ 4 := by norm_num
    _ ≤ 2 ^ (4 + i) := Nat.pow_le_pow_right (by norm_num) (by omega)
  rw [Nat.testBit_and, Nat.testBit_shiftRight, Nat.testBit_lor, Nat.testBit_shiftLeft,
    Nat.testBit_eq_false_of_lt (lt_of_lt_of_le hv h16), testBit_fifteen]
  rcases Nat.lt_or_ge i 4 with h | h
  · simp [show 4 ≤ 4 + i by omega, show 4 + i - 4 = i by omega, h]
  · have h2 : (16 : Nat) ≤ 2 ^ i := by
      calc (16 : Nat) = 2 ^ 4 := by norm_num
      _ ≤ 2 ^ i := Nat.pow_le_pow_right (by norm_num) h
    simp [show 4 ≤ 4 + i by omega, show 4 + i - 4 = i by omega,
      Nat.testBit_eq_false_of_lt (lt_of_lt_of_le hpin h2), Nat.not_lt.2 h]

/-- Unpacking the pin state from a packed `(pin << 4) | pinState` byte. -/
theorem packed_decode_state (pin v : Nat) (hv : v < 16) :
    (((pin <<< 4) ||| v) &&& 0x0F) = v := by
  apply Nat.eq_of_testBit_eq
  intro i
  rw [Nat.testBit_and, Nat.testBit_lor, Nat.testBit_shiftLeft, testBit_fifteen]
  rcases Nat.lt_or_ge i 4 with h | h
  · simp [show ¬(4 ≤ i) by omega, h]
  · have h2 : (16 : Nat) ≤ 2 ^ i := by
      calc (16 : Nat) = 2 ^ 4 := by norm_num
      _ ≤ 2 ^ i := Nat.pow_le_pow_right (by norm_num) h
    simp [Nat.testBit_eq_false_of_lt (lt_of_lt_of_le hv h2), Nat.not_lt.2 h]

/-- Any set bit of `pollChangedMask` belongs to an existing pin, because
the mask is ANDed with `_inputPinBitmask`. -/
theorem pollChangedMask_lt (s : ExpanderState) (raw p : Nat)
    (hmask : s.inputPinBitmask < 2 ^ s.pins)
    (h : (pollChangedMask s raw).testBit p = true) : p < s.pins := by
  by_contra hge
  have h2 : (2 : Nat) ^ s.pins ≤ 2 ^ p := Nat.pow_le_pow_right (by norm_num) (by omega)
  have hbit : s.inputPinBitmask.testBit p = false :=
    Nat.testBit_eq_false_of_lt (lt_of_lt_of_le hmask h2)
  rw [pollChangedMask, Nat.testBit_and, Nat.testBit_and, hbit] at h
  simp at h

/-- Complete characterisation of the change loop of `_poll` after it has
run over pins `0 .. n-1`: bit `p` of the accumulated state holds the read
value exactly when `p < n` is a set bit of the change mask, and the
emitted events are exactly the set bits below `n` not equal to the
suppress pin, in ascending pin order. -/
theorem pollStep_fst (changed readState : Nat) (noEmit : Option Nat)
    (acc : Nat × List InputEvent) (pin : Nat) :
    (pollStep changed readState noEmit acc pin).1 =
      if changed.testBit pin = true then
        setStatePin acc.1 pin (readState.testBit pin)
      else
        acc.1 := by
  unfold pollStep
  by_cases hch : (changed >>> pin) % 2 ≠ 0
  · rw [if_pos hch, if_pos ((shiftRight_mod_two_ne_iff _ _).1 hch),
      decide_shiftRight_mod_two]
  · rw [if_neg hch]
    have hchb : changed.testBit pin = false := by
      cases h : changed.testBit pin with
      | false => rfl
      | true => exact absurd ((shiftRight_mod_two_ne_iff _ _).2 h) hch
    rw [hchb]
    simp

/-- The events appended by one iteration of the change loop of `_poll`. -/
theorem pollStep_snd (changed readState : Nat) (noEmit : Option Nat)
    (acc : Nat × List InputEvent) (pin : Nat) :
    (pollStep changed readState noEmit acc pin).2 =
      if changed.testBit pin = true ∧ noEmit ≠ some pin then
        acc.2 ++ [⟨pin, readState.testBit pin⟩]
      else
        acc.2 := by
  unfold pollStep
  by_cases hch : (changed >>> pin) % 2 ≠ 0
  · have hchb : changed.testBit pin = true := (shiftRight_mod_two_ne_iff _ _).1 hch
    rw [if_pos hch]
    by_cases hne : noEmit ≠ some pin
    · rw [if_pos ⟨hchb, hne⟩]
      simp only [if_pos hne, decide_shiftRight_mod_two]
    · rw [if_neg (fun hc => hne hc.2)]
      simp only [if_neg hne]
  · rw [if_neg hch]
    have hchb : changed.testBit pin = false := by
      cases h : changed.testBit pin with
      | false => rfl
      | true => exact absurd ((shiftRight_mod_two_ne_iff _ _).2 h) hch
    rw [if_neg (fun hc => by rw [hchb] at hc; exact absurd hc.1 (by simp))]

theorem pollFold_spec (changed readState : Nat) (noEmit : Option Nat)
    (n : Nat) (c : Nat) (evs : List InputEvent) :
    (∀ p, ((List.range n).foldl (pollStep changed readState noEmit) (c, evs)).1.testBit p
        = if p < n ∧ changed.testBit p = true then readState.testBit p else c.testBit p) ∧
    ((List.range n).foldl (pollStep changed readState noEmit) (c, evs)).2
      = evs ++ (List.range n).filterMap (fun pin =>
          if changed.testBit pin = true ∧ noEmit ≠ some pin then
            some ⟨pin, readState.testBit pin⟩
          else none) := by
  induction n with
  | zero => simp
  | succ n ih =>
    obtain ⟨ih1, ih2⟩ := ih
    rw [List.range_succ, List.foldl_append, List.filterMap_append,
      List.foldl_cons, List.foldl_nil]
    constructor
    · intro p
      rw [pollStep_fst]
      by_cases hchb : changed.testBit n = true
      · rw [if_pos hchb, setStatePin_testBit]
        by_cases hp : p = n
        · subst hp
          simp [hchb, Nat.lt_succ_self]
        · rw [if_neg hp, ih1 p]
          by_cases hlt : p < n ∧ changed.testBit p = true
          · rw [if_pos hlt, if_pos ⟨by omega, hlt.2⟩]
          · rw [if_neg hlt, if_neg (fun hc => hlt ⟨by omega, hc.2⟩)]
      · rw [if_neg hchb, ih1 p]
        have hchb' : changed.testBit n = false := by
          cases h : changed.testBit n with
          | false => rfl
          | true => exact absurd h hchb
        by_cases hlt : p < n ∧ changed.testBit p = true
        · rw [if_pos hlt, if_pos ⟨by omega, hlt.2⟩]
        · refine (if_neg hlt).trans (if_neg ?_).symm
          rintro ⟨h1, h2⟩
          refine hlt ⟨?_, h2⟩
          rcases Nat.lt_succ_iff_lt_or_eq.1 h1 with h | h
          · exact h
          · subst h; rw [hchb'] at h2; exact absurd h2 (by simp)
    · rw [pollStep_snd, ih2]
      simp only [List.filterMap_cons, List.filterMap_nil]
      by_cases hc : changed.testBit n = true ∧ noEmit ≠ some n
      · rw [if_pos hc, if_pos hc]
        simp
      · rw [if_neg hc, if_neg hc]
        simp

/-- Unfolding of `_poll` for a successful read when no poll is in flight:
the final state, event list and resolved value all come from the change
loop fold (the `inputPinsThatChanged !== 0` short-circuit is invisible
because the fold is the identity on a zero change mask). -/
theorem poll_ok_eq (s : ExpanderState) (raw : Nat) (noEmit : Option Nat)
    (hpoll : s.currentlyPolling = false) :
    poll s (.ok raw) noEmit =
      ({ s with
          currentState := ((List.range s.pins).foldl
            (pollStep (pollChangedMask s raw) (raw ^^^ s.inverted) noEmit)
            (s.currentState, [])).1,
          currentlyPolling := false },
        ((List.range s.pins).foldl
            (pollStep (pollChangedMask s raw) (raw ^^^ s.inverted) noEmit)
            (s.currentState, [])).2,
        .ok ((List.range s.pins).foldl
            (pollStep (pollChangedMask s raw) (raw ^^^ s.inverted) noEmit)
            (s.currentState, [])).1) := by
  have hfold := pollFold_spec (pollChangedMask s raw) (raw ^^^ s.inverted) noEmit
    s.pins s.currentState []
  simp only [poll, hpoll, Bool.false_eq_true, if_false]
  by_cases hch : pollChangedMask s raw ≠ 0
  · rw [if_pos hch]
  · rw [if_neg hch]
    push_neg at hch
    have h0 : ∀ p, (pollChangedMask s raw).testBit p = false := by
      intro p; rw [hch]; exact Nat.zero_testBit p
    have h1 : ((List.range s.pins).foldl
        (pollStep (pollChangedMask s raw) (raw ^^^ s.inverted) noEmit)
        (s.currentState, [])).1 = s.currentState := by
      apply Nat.eq_of_testBit_eq
      intro i
      rw [hfold.1 i]
      simp [h0 i]
    have h2 : ((List.range s.pins).foldl
        (pollStep (pollChangedMask s raw) (raw ^^^ s.inverted) noEmit)
        (s.currentState, [])).2 = [] := by
      rw [hfold.2]
      simp [h0]
    rw [h1, h2]

/-- C1: for every poll on an initialized instance whose raw read resolves
with bitmask `raw`, the core computes logical values `L = raw XOR
invertedMask`; the poll resolves with the updated `currentState`; bit `p`
of `currentState` becomes `L`'s bit exactly on the set bits of
`changed = (currentState XOR L) AND hardwareInputMask AND
inputAssignedMask` (so the set of pins whose bit is updated is exactly
the set bits of `changed`); and the pins receiving an input event are
exactly the set bits of `changed` other than the optional suppress pin,
with the logical value as payload. -/
theorem poll_diff_update_events (s : ExpanderState) (raw : Nat) (noEmit : Option Nat)
    (hpoll : s.currentlyPolling = false)
    (hmask : s.inputPinBitmask < 2 ^ s.pins) :
    (poll s (.ok raw) noEmit).2.2 = .ok ((poll s (.ok raw) noEmit).1.currentState) ∧
    (∀ p, (poll s (.ok raw) noEmit).1.currentState.testBit p
        = if (pollChangedMask s raw).testBit p = true then (raw ^^^ s.inverted).testBit p
          else s.currentState.testBit p) ∧
    (∀ p, ¬((poll s (.ok raw) noEmit).1.currentState.testBit p = s.currentState.testBit p)
        ↔ (pollChangedMask s raw).testBit p = true) ∧
    (∀ p v, (⟨p, v⟩ : InputEvent) ∈ (poll s (.ok raw) noEmit).2.1
        ↔ ((pollChangedMask s raw).testBit p = true ∧ noEmit ≠ some p
            ∧ v = (raw ^^^ s.inverted).testBit p)) := by
  have hfold := pollFold_spec (pollChangedMask s raw) (raw ^^^ s.inverted) noEmit
    s.pins s.currentState []
  rw [poll_ok_eq s raw noEmit hpoll]
  have hbit : ∀ p, ((List.range s.pins).foldl
      (pollStep (pollChangedMask s raw) (raw ^^^ s.inverted) noEmit)
      (s.currentState, [])).1.testBit p
      = if (pollChangedMask s raw).testBit p = true then (raw ^^^ s.inverted).testBit p
        else s.currentState.testBit p := by
    intro p
    rw [hfold.1 p]
    by_cases hc : (pollChangedMask s raw).testBit p = true
    · rw [if_pos ⟨pollChangedMask_lt s raw p hmask hc, hc⟩, if_pos hc]
    · rw [if_neg (fun hx => hc hx.2), if_neg hc]
  have hdiff : ∀ p, (pollChangedMask s raw).testBit p = true →
      ¬((raw ^^^ s.inverted).testBit p = s.currentState.testBit p) := by
    intro p hc heq
    rw [pollChangedMask, Nat.testBit_and, Nat.testBit_and, Nat.testBit_xor] at hc
    rw [heq] at hc
    simp at hc
  refine ⟨rfl, hbit, ?_, ?_⟩
  · intro p
    rw [hbit p]
    by_cases hc : (pollChangedMask s raw).testBit p = true
    · rw [if_pos hc]
      exact ⟨fun _ => hc, fun _ => hdiff p hc⟩
    · rw [if_neg hc]
      exact ⟨fun h => absurd rfl h, fun h => absurd h hc⟩
  · intro p v
    rw [hfold.2]
    simp only [List.nil_append, List.mem_filterMap, List.mem_range]
    constructor
    · rintro ⟨a, ha, hfa⟩
      by_cases hca : (pollChangedMask s raw).testBit a = true ∧ noEmit ≠ some a
      · rw [if_pos hca] at hfa
        have h := Option.some.inj hfa
        rw [InputEvent.mk.injEq] at h
        obtain ⟨hap, hv⟩ := h
        subst hap
        exact ⟨hca.1, hca.2, hv.symm⟩
      · rw [if_neg hca] at hfa
        exact absurd hfa (by simp)
    · rintro ⟨hc, hne, hv⟩
      exact ⟨p, pollChangedMask_lt s raw p hmask hc,
        by rw [if_pos ⟨hc, hne⟩, hv]⟩

/-- The bitmask `_setNewState` hands to `_writeState` is exactly the
mutated `currentState` XORed with `_inverted` and ORed with
`_inputPinBitmask` (neither of which `_setNewState` changes). -/
theorem setNewState_write (s : ExpanderState) (us : Option (List Nat)) :
    (setNewState s us).2
      = ((setNewState s us).1.currentState ^^^ (setNewState s us).1.inverted)
        ||| (setNewState s us).1.inputPinBitmask := rfl

/-- `_setNewState` only touches `currentState`. -/
theorem setNewState_frame (s : ExpanderState) (us : Option (List Nat)) :
    (setNewState s us).1.inverted = s.inverted ∧
    (setNewState s us).1.inputPinBitmask = s.inputPinBitmask ∧
    (setNewState s us).1.pins = s.pins ∧
    (setNewState s us).1.directions = s.directions := ⟨rfl, rfl, rfl, rfl⟩

/-- Unfolding one packed pin update: for a pin number below 16 and a pin
state below 16 the packed byte decodes back to its components, so the
update toggles the pin for `PinState_Toggle` and otherwise sets it to
`pinState = PinState_On`. -/
theorem applyPinUpdate_packed (c pin st : Nat) (hpin : pin < 16) (hst : st < 16) :
    applyPinUpdate c ((pin <<< 4) ||| (st &&& 0x0F)) =
      setStatePin c pin
        (if st = PinState_Toggle then !(decide ((c >>> pin) % 2 ≠ 0))
         else decide (st = PinState_On)) := by
  have hst15 : st &&& 0x0F = st := by
    rw [show (0x0F : Nat) = 15 from rfl, Nat.and_pow_two_sub_one_eq_mod st 4,
      Nat.mod_eq_of_lt hst]
  have hv : st &&& 0x0F < 16 := by rw [hst15]; exact hst
  simp only [applyPinUpdate]
  rw [packed_decode_pin pin (st &&& 0x0F) hpin hv,
    packed_decode_state pin (st &&& 0x0F) hv, hst15]

/-- A packed pin update leaves the bits of every other pin unchanged. -/
theorem applyPinUpdate_testBit_ne (c u p : Nat) (h : ((u >>> 4) &&& 0x0F) ≠ p) :
    (applyPinUpdate c u).testBit p = c.testBit p := by
  simp only [applyPinUpdate]
  rw [setStatePin_testBit, if_neg (fun hp => h hp.symm)]

/-- C4: every hardware state write issued by `setPin`, `setAllPins`,
`outputPin` with an initial value, or `inputPin` writes exactly the
bitmask `(currentState XOR invertedMask) OR hardwareInputMask` computed
after the requested per-pin updates were applied to `currentState`, and
the bitmask handed to `_writeState` has every hardware-input pin's bit
forced high regardless of its stored value. -/
theorem state_write_formula (s : ExpanderState) (pin : Nat) (vv : Option Bool)
    (inv : Bool) (iv : Bool) (av : Bool ⊕ Nat) :
    (∀ s2 acts, setPin s pin vv = .ok (s2, acts) →
        acts = [.writeState ((s2.currentState ^^^ s2.inverted) ||| s2.inputPinBitmask)]) ∧
    (∀ s2 acts, setAllPins s av = (s2, acts) → acts ≠ [] →
        acts = [.writeState ((s2.currentState ^^^ s2.inverted) ||| s2.inputPinBitmask)]) ∧
    (∀ s2 acts w, outputPin s pin inv (some iv) = .ok (s2, acts) →
        HwAction.writeState w ∈ acts →
        w = (s2.currentState ^^^ s2.inverted) ||| s2.inputPinBitmask) ∧
    (∀ s2 acts w, inputPin s pin inv = .ok (s2, acts) →
        HwAction.writeState w ∈ acts →
        w = (s2.currentState ^^^ s2.inverted) ||| s2.inputPinBitmask) ∧
    (∀ us p, s.inputPinBitmask.testBit p = true →
        ((setNewState s us).2).testBit p = true) := by
  refine ⟨?_, ?_, ?_, ?_, ?_⟩
  · intro s2 acts h
    by_cases h1 : s.pins - 1 < pin
    · unfold setPin at h
      rw [if_pos h1] at h
      exact absurd h (by simp)
    · by_cases h2 : s.directions.getD pin DIR_UNDEF ≠ DIR_OUT
      · unfold setPin at h
        rw [if_neg h1, if_pos h2] at h
        exact absurd h (by simp)
      · simp only [setPin, if_neg h1, if_neg h2, Except.ok.injEq, Prod.mk.injEq] at h
        obtain ⟨h3, h4⟩ := h
        subst h3
        subst h4
        rfl
  · intro s2 acts h hne
    by_cases h1 : DIR_OUT ∈ s.directions
    · simp only [setAllPins, if_pos h1, Prod.mk.injEq] at h
      obtain ⟨h3, h4⟩ := h
      subst h3
      subst h4
      rfl
    · simp only [setAllPins, if_neg h1, Prod.mk.injEq] at h
      obtain ⟨h3, h4⟩ := h
      subst h4
      exact absurd rfl hne
  · intro s2 acts w h hmem
    by_cases h1 : s.pins - 1 < pin
    · unfold outputPin at h
      rw [if_pos h1] at h
      exact absurd h (by simp)
    · simp only [outputPin, if_neg h1, Except.ok.injEq, Prod.mk.injEq] at h
      obtain ⟨h3, h4⟩ := h
      subst h3
      subst h4
      simp only [List.mem_cons, List.not_mem_nil, or_false] at hmem
      rcases hmem with h | h | h
      · exact absurd h (by simp)
      · exact absurd h (by simp)
      · rw [HwAction.writeState.injEq] at h
        rw [h]
        rfl
  · intro s2 acts w h hmem
    by_cases h1 : s.pins - 1 < pin
    · unfold inputPin at h
      rw [if_pos h1] at h
      exact absurd h (by simp)
    · simp only [inputPin, if_neg h1, Except.ok.injEq, Prod.mk.injEq] at h
      obtain ⟨h3, h4⟩ := h
      subst h3
      subst h4
      simp only [List.mem_cons, List.not_mem_nil, or_false] at hmem
      rcases hmem with h | h | h | h
      · exact absurd h (by simp)
      · exact absurd h (by simp)
      · rw [HwAction.writeState.injEq] at h
        rw [h]
        rfl
      · exact absurd h (by simp)
  · intro us p hp
    have hw : (setNewState s us).2
        = ((setNewState s us).1.currentState ^^^ s.inverted) ||| s.inputPinBitmask := rfl
    rw [hw, Nat.testBit_lor, hp, Bool.or_true]

/-- A pin whose direction entry reads `DIR_OUT` witnesses that
`DIR_OUT` occurs in the direction table. -/
theorem dir_out_mem (l : List Int) (p : Nat)
    (h : l.getD p DIR_UNDEF = DIR_OUT) : DIR_OUT ∈ l := by
  by_cases hp : p < l.length
  · rw [List.getD_eq_getElem l DIR_UNDEF hp] at h
    rw [← h]
    exact List.getElem_mem hp
  · rw [List.getD_eq_default l DIR_UNDEF (Nat.le_of_not_lt hp)] at h
    exact absurd h (by decide)

/-- The packed pin state written by `setAllPins` is `On`/`Off`, never
`Toggle`, and decodes back to the resolved bit. -/
theorem packed_state_resolve (b : Bool) :
    ((if b then PinState_On else PinState_Off) : Nat) < 16 ∧
    ((if b then PinState_On else PinState_Off) : Nat) ≠ PinState_Toggle ∧
    (decide (((if b then PinState_On else PinState_Off) : Nat) = PinState_On)) = b := by
  cases b <;> simp [PinState_On, PinState_Off, PinState_Toggle]

/-- Bit-level description of folding the packed updates that `setAllPins`
collects for pins `0 .. n-1` over a starting state: output pins take the
resolved broadcast/mask bit, all other bits are untouched. -/
theorem setAllPins_fold_testBit (s : ExpanderState) (av : Bool ⊕ Nat) (n : Nat) :
    n ≤ 16 → ∀ (c : Nat) (p : Nat),
      ((((List.range n).filterMap (fun pin =>
          if s.directions.getD pin DIR_UNDEF = DIR_OUT then
            some ((pin <<< 4) |||
              ((if resolveAllPinsBit av pin then PinState_On else PinState_Off) &&& 0x0F))
          else none)).foldl applyPinUpdate c)).testBit p
      = if p < n ∧ s.directions.getD p DIR_UNDEF = DIR_OUT then resolveAllPinsBit av p
        else c.testBit p := by
  induction n with
  | zero =>
    intro _ c p
    simp
  | succ n ih =>
    intro hn c p
    rw [List.range_succ, List.filterMap_append, List.foldl_append]
    by_cases hd : s.directions.getD n DIR_UNDEF = DIR_OUT
    · simp only [List.filterMap_cons, List.filterMap_nil, if_pos hd,
        List.foldl_cons, List.foldl_nil]
      obtain ⟨hlt, hnt, hdec⟩ := packed_state_resolve (resolveAllPinsBit av n)
      rw [applyPinUpdate_packed _ n _ (by omega) hlt, if_neg hnt, hdec,
        setStatePin_testBit]
      by_cases hp : p = n
      · subst hp
        rw [if_pos rfl, if_pos ⟨Nat.lt_succ_self p, hd⟩]
      · rw [if_neg hp, ih (by omega) c p]
        by_cases hc : p < n ∧ s.directions.getD p DIR_UNDEF = DIR_OUT
        · rw [if_pos hc, if_pos ⟨by omega, hc.2⟩]
        · refine (if_neg hc).trans (if_neg ?_).symm
          rintro ⟨hx1, hx2⟩
          exact hc ⟨by omega, hx2⟩
    · simp only [List.filterMap_cons, List.filterMap_nil, if_neg hd, List.foldl_nil]
      rw [ih (by omega) c p]
      by_cases hc : p < n ∧ s.directions.getD p DIR_UNDEF = DIR_OUT
      · rw [if_pos hc, if_pos ⟨by omega, hc.2⟩]
      · refine (if_neg hc).trans (if_neg ?_).symm
        rintro ⟨hx1, hx2⟩
        refine hc ⟨?_, hx2⟩
        rcases Nat.lt_succ_iff_lt_or_eq.1 hx1 with h | h
        · exact h
        · subst h
          exact absurd hx2 hd

/-- C5: `setAllPins` is a no-op (no hardware action, no state change)
when no pin has direction Output; otherwise it issues exactly one queued
hardware write and changes only the `currentState` bits of Output pins,
each resolved from the boolean broadcast or the matching bit of the
supplied mask; and a successful `setPin` never changes the
`currentState` bit of a pin that is not an Output pin. -/
theorem setAllPins_setPin_frame (s : ExpanderState) (av : Bool ⊕ Nat)
    (hwf : WF s) :
    (¬DIR_OUT ∈ s.directions → setAllPins s av = (s, [])) ∧
    (DIR_OUT ∈ s.directions →
        (setAllPins s av).2
          = [.writeState (((setAllPins s av).1.currentState ^^^ s.inverted)
              ||| s.inputPinBitmask)]) ∧
    (∀ p, (setAllPins s av).1.currentState.testBit p
        = if s.directions.getD p DIR_UNDEF = DIR_OUT then resolveAllPinsBit av p
          else s.currentState.testBit p) ∧
    (∀ pin vv s2 acts, setPin s pin vv = .ok (s2, acts) →
        ∀ p, s.directions.getD p DIR_UNDEF ≠ DIR_OUT →
          s2.currentState.testBit p = s.currentState.testBit p) := by
  obtain ⟨hpins, hlen, -⟩ := hwf
  have hpins16 : s.pins ≤ 16 := by rcases hpins with h | h <;> omega
  refine ⟨?_, ?_, ?_, ?_⟩
  · intro h
    simp only [setAllPins, if_neg h]
  · intro h
    simp only [setAllPins, if_pos h]
    rfl
  · intro p
    by_cases h : DIR_OUT ∈ s.directions
    · simp only [setAllPins, if_pos h]
      rw [show ∀ us, (setNewState s (some us)).1.currentState
            = us.foldl applyPinUpdate s.currentState from fun _ => rfl,
        setAllPins_fold_testBit s av s.pins hpins16 s.currentState p]
      by_cases hc : s.directions.getD p DIR_UNDEF = DIR_OUT
      · have hp : p < s.pins := by
          by_contra hge
          rw [List.getD_eq_default s.directions DIR_UNDEF (by omega)] at hc
          exact absurd hc (by decide)
        rw [if_pos ⟨hp, hc⟩, if_pos hc]
      · rw [if_neg (fun hx => hc hx.2), if_neg hc]
    · simp only [setAllPins, if_neg h]
      by_cases hc : s.directions.getD p DIR_UNDEF = DIR_OUT
      · exact absurd (dir_out_mem s.directions p hc) h
      · rw [if_neg hc]
  · intro pin vv s2 acts h p hp
    by_cases h1 : s.pins - 1 < pin
    · unfold setPin at h
      rw [if_pos h1] at h
      exact absurd h (by simp)
    · by_cases h2 : s.directions.getD pin DIR_UNDEF ≠ DIR_OUT
      · unfold setPin at h
        rw [if_neg h1, if_pos h2] at h
        exact absurd h (by simp)
      · simp only [setPin, if_neg h1, if_neg h2, Except.ok.injEq, Prod.mk.injEq] at h
        obtain ⟨h3, h4⟩ := h
        subst h3
        have hpinlt : pin < 16 := by omega
        have hppin : pin ≠ p := fun hx => hp (hx ▸ (not_not.1 h2))
        show (applyPinUpdate s.currentState _).testBit p = s.currentState.testBit p
        apply applyPinUpdate_testBit_ne
        rw [packed_decode_pin pin _ hpinlt (by
          cases vv with
          | none => decide
          | some b => cases b <;> decide)]
        exact hppin

/-- C8: every operation taking a pin index rejects an index outside
`[0, pinCount)` with the range error before performing any hardware
access (the error result carries no state change and no `HwAction`), and
`setPin` on an in-range pin whose direction is not Output rejects with
the state error, leaving `currentState` unchanged (no successor state is
produced). -/
theorem pin_range_and_state_errors (s : ExpanderState) (pin : Nat)
    (vv : Option Bool) (inv : Bool) (iv : Option Bool) (hwf : WF s) :
    (s.pins ≤ pin →
        inputPin s pin inv = .error "Pin out of range" ∧
        outputPin s pin inv iv = .error "Pin out of range" ∧
        setPin s pin vv = .error "Pin out of range." ∧
        getPinValue s pin = .error "Pin out of range.") ∧
    (pin < s.pins → s.directions.getD pin DIR_UNDEF ≠ DIR_OUT →
        setPin s pin vv = .error "Pin is not defined as output.") := by
  obtain ⟨hpins, -, -⟩ := hwf
  have h8 : 8 ≤ s.pins := by rcases hpins with h | h <;> omega
  constructor
  · intro hge
    have h1 : s.pins - 1 < pin := by omega
    refine ⟨?_, ?_, ?_, ?_⟩
    · unfold inputPin
      rw [if_pos h1]
    · unfold outputPin
      rw [if_pos h1]
    · unfold setPin
      rw [if_pos h1]
    · unfold getPinValue
      rw [if_pos h1]
  · intro hlt h2
    have h1 : ¬(s.pins - 1 < pin) := by omega
    unfold setPin
    rw [if_neg h1, if_pos h2]

/-- Once the outstanding-poll bound would be exceeded, at least one of a
batch of poll submissions is rejected with the bound error. -/
theorem submitPolls_mem_error (n : Nat) :
    ∀ s : ExpanderState, s.queuePollCount ≤ 3 + s.pins →
      3 + s.pins < s.queuePollCount + n →
      .error "Too many polls in queue." ∈ (submitPolls s n).2 := by
  induction n with
  | zero =>
    intro s h1 h2
    omega
  | succ n ih =>
    intro s h1 h2
    by_cases hb : 3 + s.pins ≤ s.queuePollCount
    · have he : enqueuePollCheck s false = .error "Too many polls in queue." := by
        unfold enqueuePollCheck
        rw [if_pos ⟨by simp, hb⟩]
      unfold submitPolls
      rw [he]
      exact List.mem_cons_self _ _
    · have hc : enqueuePollCheck s false
          = .ok { s with queuePollCount := s.queuePollCount + 1 } := by
        unfold enqueuePollCheck
        rw [if_neg (fun hx => hb hx.2)]
      unfold submitPolls
      rw [hc]
      refine List.mem_cons_of_mem _ (ih _ ?_ ?_)
      · show s.queuePollCount + 1 ≤ 3 + s.pins
        omega
      · show 3 + s.pins < s.queuePollCount + 1 + n
        omega

/-- C3: at most `3 + pinCount` polls may be outstanding at once: a
`doPoll` submitted without the ignore-bound flag while the bound is
reached fails immediately with the "too many polls" error and is not
enqueued (the instance state is unchanged), and submitting
`pinCount + 4` concurrent `doPoll` calls without awaiting makes at least
one fail with that error. -/
theorem poll_queue_bound (s t : ExpanderState) (h0 : s.queuePollCount = 0)
    (hb : 3 + t.pins ≤ t.queuePollCount) :
    (enqueuePollCheck t false = .error "Too many polls in queue." ∧
      submitPolls t 1 = (t, [.error "Too many polls in queue."])) ∧
    .error "Too many polls in queue." ∈ (submitPolls s (s.pins + 4)).2 := by
  constructor
  · have he : enqueuePollCheck t false = .error "Too many polls in queue." := by
      unfold enqueuePollCheck
      rw [if_pos ⟨by simp, hb⟩]
    refine ⟨he, ?_⟩
    show submitPolls t 1 = _
    unfold submitPolls
    rw [he]
    rfl
  · exact submitPolls_mem_error (s.pins + 4) s (by omega) (by omega)

/-- `_poll` always clears the in-flight flag again, touches neither the
poll counter nor the pin count, whether the read succeeds or fails. -/
theorem poll_state_flags (s : ExpanderState) (r : Except String Nat)
    (noEmit : Option Nat) (hpoll : s.currentlyPolling = false) :
    (poll s r noEmit).1.currentlyPolling = false ∧
    (poll s r noEmit).1.queuePollCount = s.queuePollCount ∧
    (poll s r noEmit).1.pins = s.pins := by
  cases r with
  | error e =>
    have hpe : poll s (.error e) noEmit
        = ({ s with currentlyPolling := false }, [], .error e) := by
      simp only [poll, hpoll, Bool.false_eq_true, if_false]
    rw [hpe]
    exact ⟨rfl, rfl, rfl⟩
  | ok raw =>
    rw [poll_ok_eq s raw noEmit hpoll]
    exact ⟨rfl, rfl, rfl⟩

/-- One complete `doPoll` lifecycle leaves the in-flight flag cleared and
restores the outstanding-poll counter to its prior value, whether the
poll was rejected at the bound, read successfully, or failed. -/
theorem doPollLifecycle_restores (s : ExpanderState) (b : Bool)
    (r : Except String Nat) (noEmit : Option Nat)
    (hpoll : s.currentlyPolling = false) :
    (doPollLifecycle s b r noEmit).1.currentlyPolling = false ∧
    (doPollLifecycle s b r noEmit).1.queuePollCount = s.queuePollCount ∧
    (doPollLifecycle s b r noEmit).1.pins = s.pins := by
  unfold doPollLifecycle enqueuePollCheck
  by_cases hc : (¬b = true ∧ 3 + s.pins ≤ s.queuePollCount)
  · rw [if_pos hc]
    exact ⟨hpoll, rfl, rfl⟩
  · rw [if_neg hc]
    obtain ⟨f1, f2, f3⟩ := poll_state_flags
      { s with queuePollCount := s.queuePollCount + 1 } r noEmit hpoll
    refine ⟨f1, ?_, f3⟩
    show (poll { s with queuePollCount := s.queuePollCount + 1 } r noEmit).1.queuePollCount - 1
        = s.queuePollCount
    rw [f2]
    exact Nat.add_sub_cancel s.queuePollCount 1

/-- Draining any sequence of poll lifecycles preserves the cleared
in-flight flag, the outstanding-poll counter, and the pin count. -/
theorem drainPolls_inv (reads : List (Except String Nat)) :
    ∀ s : ExpanderState, s.currentlyPolling = false →
      (drainPolls s reads).currentlyPolling = false ∧
      (drainPolls s reads).queuePollCount = s.queuePollCount ∧
      (drainPolls s reads).pins = s.pins := by
  induction reads with
  | nil =>
    intro s h
    exact ⟨h, rfl, rfl⟩
  | cons r rest ih =>
    intro s h
    obtain ⟨f1, f2, f3⟩ := doPollLifecycle_restores s false r none h
    obtain ⟨g1, g2, g3⟩ := ih (doPollLifecycle s false r none).1 f1
    exact ⟨g1, by rw [show drainPolls s (r :: rest)
        = drainPolls (doPollLifecycle s false r none).1 rest from rfl, g2, f2],
      by rw [show drainPolls s (r :: rest)
        = drainPolls (doPollLifecycle s false r none).1 rest from rfl, g3, f3]⟩

/-- C9: after every poll started by the core completes — resolving or
rejecting — the in-flight flag is false again and the outstanding-poll
counter is back at its prior value, so after draining any sequence of
(possibly failing) polls the instance accepts a new `doPoll` submitted
without the ignore-bound flag. -/
theorem failed_polls_recover (s : ExpanderState)
    (reads : List (Except String Nat))
    (hpoll : s.currentlyPolling = false)
    (hcnt : s.queuePollCount < 3 + s.pins) :
    (∀ r : Except String Nat,
        (doPollLifecycle s false r none).1.currentlyPolling = false ∧
        (doPollLifecycle s false r none).1.queuePollCount = s.queuePollCount) ∧
    (drainPolls s reads).currentlyPolling = false ∧
    (drainPolls s reads).queuePollCount = s.queuePollCount ∧
    enqueuePollCheck (drainPolls s reads) false
      = .ok { drainPolls s reads with
              queuePollCount := (drainPolls s reads).queuePollCount + 1 } := by
  obtain ⟨d1, d2, d3⟩ := drainPolls_inv reads s hpoll
  refine ⟨fun r => ⟨(doPollLifecycle_restores s false r none hpoll).1,
      (doPollLifecycle_restores s false r none hpoll).2.1⟩, d1, d2, ?_⟩
  unfold enqueuePollCheck
  rw [if_neg ?_]
  rintro ⟨-, hx⟩
  rw [d2, d3] at hx
  omega

/-- C10: calling `initialize` with `initialHardwareState` omitted
(undefined) is exactly equivalent to passing `true` — both resolve the
initial hardware state to the all-ones bitmask `2^pinCount - 1` — and
`initialize` rejects precisely when given a number outside
`[0, 2^pinCount - 1]` or a value that is neither boolean, number, nor
undefined. -/
theorem initialize_undef_defaults_true (s : ExpanderState) :
    (initializeExpander s .undef = initializeExpander s (.boolean true)) ∧
    ((initializeExpander s .undef).2 = .ok (2 ^ s.pins - 1)) ∧
    (∀ a : InitArg,
        (∃ e, (initializeExpander s a).2 = .error e)
          ↔ (a = .other ∨
              ∃ m : Int, a = .num m ∧ (m < 0 ∨ (2 ^ s.pins - 1 : Int) < m))) := by
  refine ⟨rfl, rfl, ?_⟩
  intro a
  cases a with
  | boolean b => cases b <;> simp [initializeExpander]
  | num m =>
    by_cases hm : m < 0 ∨ (2 ^ s.pins - 1 : Int) < m
    · simp only [initializeExpander, if_pos hm]
      simp [hm]
    · simp only [initializeExpander, if_neg hm]
      simp [hm]
  | undef => simp [initializeExpander]
  | other => simp [initializeExpander]

/-- A poll whose read resolves leaves `currentState` untouched and emits
nothing when no pin has been assigned as an input, because the change
mask is ANDed with `_inputPinBitmaskAssigned`. -/
theorem poll_unassigned (s : ExpanderState) (raw : Nat)
    (hpoll : s.currentlyPolling = false)
    (hassigned : s.inputPinBitmaskAssigned = 0) :
    poll s (.ok raw) none
      = ({ s with currentlyPolling := false }, [], .ok s.currentState) := by
  have hch : pollChangedMask s raw = 0 := by
    unfold pollChangedMask
    rw [hassigned, Nat.and_zero]
  simp only [poll, hpoll, Bool.false_eq_true, if_false, hch]
  simp

/-- C7 counterexample: on an 8-pin chip, `initialize(1)` followed
immediately by `doPoll()` — with the hardware read faithfully returning
the just-written initial state 1 — resolves with 0, not with the mask 1:
the claimed round-trip fails for every nonzero mask. -/
theorem init_roundtrip_cex :
    initThenPoll 8 1 1 = .ok 0 ∧ initThenPoll 8 1 1 ≠ .ok 1 := by
  constructor
  · decide
  · decide

/-- C7 (amended): `initialize(m)` followed immediately by `doPoll()`, on
the default all-input configuration with nothing inverted, resolves with
0 — the `currentState` that `initialize` reset — for every in-range mask
`m` and every raw value the hardware read returns, because `initialize`
leaves `inputPinBitmaskAssigned = 0` so the poll detects no changes; the
round-trip returns `m` unchanged only for `m = 0`. -/
theorem init_then_poll_zero (pins m raw : Nat) (hm : m ≤ 2 ^ pins - 1) :
    initThenPoll pins m raw = .ok 0 := by
  have h1 : (1 : Nat) ≤ 2 ^ pins := Nat.one_le_two_pow
  have hcond : ¬(((m : Nat) : Int) < 0 ∨ (2 ^ pins - 1 : Int) < ((m : Nat) : Int)) := by
    rintro (h | h)
    · omega
    · have hle : ((m : Nat) : Int) ≤ ((2 ^ pins - 1 : Nat) : Int) := by exact_mod_cast hm
      have hcast : ((2 ^ pins - 1 : Nat) : Int) = (2 ^ pins : Int) - 1 := by
        push_cast [h1]
        ring
      have hpow : ((2 ^ pins : Nat) : Int) = (2 ^ pins : Int) := by push_cast; ring
      omega
  unfold initThenPoll
  simp only [initializeExpander, freshState, if_neg hcond]
  have hok : enqueuePollCheck
      { pins := pins, directions := List.replicate pins DIR_UNDEF,
        inputPinBitmask := 2 ^ pins - 1, inputPinBitmaskAssigned := 0,
        inverted := 0, currentState := 0, currentlyPolling := false,
        queuePollCount := 0 } false
      = .ok { pins := pins, directions := List.replicate pins DIR_UNDEF,
              inputPinBitmask := 2 ^ pins - 1, inputPinBitmaskAssigned := 0,
              inverted := 0, currentState := 0, currentlyPolling := false,
              queuePollCount := 1 } := by
    unfold enqueuePollCheck
    rw [if_neg ?_]
    rintro ⟨-, hx⟩
    have hx' : 3 + pins ≤ 0 := hx
    omega
  unfold doPollLifecycle
  rw [hok]
  show (poll { pins := pins, directions := List.replicate pins DIR_UNDEF,
               inputPinBitmask := 2 ^ pins - 1, inputPinBitmaskAssigned := 0,
               inverted := 0, currentState := 0, currentlyPolling := false,
               queuePollCount := 1 } (.ok raw) none).2.2 = .ok 0
  rw [poll_unassigned _ raw rfl rfl]

/-- Written from the spec's contract for the operation queue, to be
compared against `dequeueRun`: units of work run strictly one at a time
in submission order, and each unit's own result — success or failure —
is delivered to its own caller before the next unit starts. -/
def specSerializedTrace {ε α : Type} : List (QueuedTask ε α) → List (QueueEvent ε α)
  | [] => []
  | t :: rest => .start t.id :: .deliver t.id t.result :: specSerializedTrace rest

/-- Appending submissions (no maximum length configured) builds the FIFO
in submission order. -/
theorem pqEnqueue_foldl_queue {ε α : Type} (ts : List (QueuedTask ε α)) :
    ∀ (q : List (QueuedTask ε α)) (w : Bool),
      ((ts.foldl (fun st u => (pqEnqueue st u).1)
          { queue := q, working := w, maxQueueLength := none }).queue) = q ++ ts := by
  induction ts with
  | nil =>
    intro q w
    simp
  | cons t rest ih =>
    intro q w
    rw [List.foldl_cons]
    show (rest.foldl (fun st u => (pqEnqueue st u).1)
        { queue := q ++ [t], working := w, maxQueueLength := none }).queue = _
    rw [ih (q ++ [t]) w]
    simp

/-- The drain of the source's `dequeue` produces the spec's strictly
serialized trace. -/
theorem dequeueRun_eq_spec {ε α : Type} (ts : List (QueuedTask ε α)) :
    dequeueRun false ts = specSerializedTrace ts := by
  induction ts with
  | nil => rfl
  | cons t rest ih =>
    show _ :: _ :: dequeueRun false rest = _ :: _ :: specSerializedTrace rest
    rw [ih]

/-- Each unit of work contributes exactly its own start and delivery. -/
theorem dequeueRun_length {ε α : Type} (ts : List (QueuedTask ε α)) :
    (dequeueRun false ts).length = 2 * ts.length := by
  induction ts with
  | nil => rfl
  | cons t rest ih =>
    show ((QueueEvent.start t.id) :: (QueueEvent.deliver t.id t.result)
        :: dequeueRun false rest).length = _
    rw [List.length_cons, List.length_cons, ih, List.length_cons]
    omega

/-- The `i`-th unit starts at trace position `2i` and its result is
delivered to its own caller at position `2i + 1` — strictly after every
earlier unit's delivery and before every later unit's start. -/
theorem dequeueRun_get {ε α : Type} (ts : List (QueuedTask ε α)) (i : Nat)
    (h : i < ts.length) :
    (dequeueRun false ts).get? (2 * i) = some (.start (ts.get ⟨i, h⟩).id) ∧
    (dequeueRun false ts).get? (2 * i + 1)
      = some (.deliver (ts.get ⟨i, h⟩).id (ts.get ⟨i, h⟩).result) := by
  induction ts generalizing i with
  | nil => exact absurd h (by simp)
  | cons t rest ih =>
    cases i with
    | zero => exact ⟨rfl, rfl⟩
    | succ i =>
      have h' : i < rest.length := by
        rw [List.length_cons] at h
        omega
      obtain ⟨g1, g2⟩ := ih i h'
      constructor
      · show ((QueueEvent.start t.id) :: (QueueEvent.deliver t.id t.result)
            :: dequeueRun false rest).get? (2 * (i + 1)) = _
        rw [show 2 * (i + 1) = 2 * i + 1 + 1 by ring,
          List.get?_cons_succ, List.get?_cons_succ]
        exact g1
      · show ((QueueEvent.start t.id) :: (QueueEvent.deliver t.id t.result)
            :: dequeueRun false rest).get? (2 * (i + 1) + 1) = _
        rw [show 2 * (i + 1) + 1 = 2 * i + 1 + 1 + 1 by ring,
          List.get?_cons_succ, List.get?_cons_succ]
        exact g2

/-- A failed unit of work does not cancel or clear the queued units after
it: the trace of the whole queue decomposes around any unit as its own
start/deliver pair between the untouched drains of the prefix and the
suffix. -/
theorem dequeueRun_split {ε α : Type} (xs : List (QueuedTask ε α))
    (t : QueuedTask ε α) (ys : List (QueuedTask ε α)) :
    dequeueRun false (xs ++ t :: ys)
      = dequeueRun false xs ++ [.start t.id, .deliver t.id t.result]
        ++ dequeueRun false ys := by
  induction xs with
  | nil => rfl
  | cons x rest ih =>
    show (QueueEvent.start x.id) :: (QueueEvent.deliver x.id x.result)
        :: dequeueRun false (rest ++ t :: ys) = _
    rw [ih]
    rfl

/-- C2: units of work submitted to one `PromiseQueue` are appended in
FIFO order; the drain runs them strictly one at a time in submission
order — nothing starts while `working` is set, the `i`-th unit starts at
trace position `2i` and is resolved at `2i + 1`, so each unit starts
only after the previous unit's result was delivered; a failing unit's
error is delivered only to its own caller and the queue continues
draining the units queued after it. -/
theorem promise_queue_fifo {ε α : Type} (ts xs ys : List (QueuedTask ε α))
    (t : QueuedTask ε α) (i : Nat) (hi : i < ts.length)
    (hsplit : ts = xs ++ t :: ys) :
    ((ts.foldl (fun st u => (pqEnqueue st u).1)
        { queue := [], working := false, maxQueueLength := none }).queue = ts) ∧
    dequeueRun false ts = specSerializedTrace ts ∧
    dequeueRun true ts = [] ∧
    (dequeueRun false ts).length = 2 * ts.length ∧
    ((dequeueRun false ts).get? (2 * i) = some (.start (ts.get ⟨i, hi⟩).id) ∧
      (dequeueRun false ts).get? (2 * i + 1)
        = some (.deliver (ts.get ⟨i, hi⟩).id (ts.get ⟨i, hi⟩).result)) ∧
    dequeueRun false ts
      = dequeueRun false xs ++ [.start t.id, .deliver t.id t.result]
        ++ dequeueRun false ys := by
  refine ⟨?_, dequeueRun_eq_spec ts, ?_, dequeueRun_length ts,
    dequeueRun_get ts i hi, ?_⟩
  · rw [pqEnqueue_foldl_queue ts [] false]
    simp
  · cases ts <;> rfl
  · rw [hsplit, dequeueRun_split xs t ys]

/-- Overwriting a line's use count makes that count the lookup result. -/
theorem regLookup_regSet_self (reg : List (Nat × Nat)) (line c : Nat) :
    regLookup (regSet reg line c) line = some c := by
  induction reg with
  | nil => simp [regSet, regLookup]
  | cons hd rest ih =>
    obtain ⟨l, c0⟩ := hd
    by_cases hl : l = line
    · subst hl
      simp [regSet, regLookup]
    · simp [regSet, regLookup, hl, ih]

/-- A line that never occurs among the registered keys looks up to
nothing. -/
theorem regLookup_not_mem (reg : List (Nat × Nat)) (line : Nat)
    (h : line ∉ reg.map Prod.fst) : regLookup reg line = none := by
  induction reg with
  | nil => rfl
  | cons hd rest ih =>
    obtain ⟨l, c⟩ := hd
    rw [List.map_cons, List.mem_cons, not_or] at h
    obtain ⟨h1, h2⟩ := h
    show (if l = line then some c else regLookup rest line) = none
    rw [if_neg (fun hx => h1 (hx.symm)), ih h2]

/-- Deleting a line from a duplicate-free registration table leaves no
entry for it. -/
theorem regLookup_regRemove_self (reg : List (Nat × Nat)) (line : Nat)
    (hnd : (reg.map Prod.fst).Nodup) :
    regLookup (regRemove reg line) line = none := by
  induction reg with
  | nil => rfl
  | cons hd rest ih =>
    obtain ⟨l, c⟩ := hd
    rw [List.map_cons, List.nodup_cons] at hnd
    obtain ⟨hl, hnd'⟩ := hnd
    by_cases hll : l = line
    · subst hll
      show regLookup (if l = l then rest else _) l = none
      rw [if_pos rfl]
      exact regLookup_not_mem rest l hl
    · show regLookup (if l = line then rest else (l, c) :: regRemove rest line) line = none
      rw [if_neg hll]
      show (if l = line then some c else regLookup (regRemove rest line) line) = none
      rw [if_neg hll, ih hnd']

/-- Registering a previously-unused line appends it with use count 1. -/
theorem regLookup_append_fresh (reg : List (Nat × Nat)) (line : Nat)
    (h : regLookup reg line = none) :
    regLookup (reg ++ [(line, 1)]) line = some 1 := by
  induction reg with
  | nil => simp [regLookup]
  | cons hd rest ih =>
    obtain ⟨l, c0⟩ := hd
    have hstep : regLookup ((l, c0) :: rest) line
        = if l = line then some c0 else regLookup rest line := rfl
    rw [hstep] at h
    by_cases hl : l = line
    · rw [if_pos hl] at h
      exact absurd h (by simp)
    · rw [if_neg hl] at h
      show (if l = line then some c0 else regLookup (rest ++ [(line, 1)]) line) = some 1
      rw [if_neg hl]
      exact ih h

/-- C6: the process-wide GPIO registration is reference-counted per
line.  `enableInterrupt` on an instance that already holds a line fails
with the "already enabled" error; the first `enableInterrupt` for a line
creates the watch with use count 1; a further `enableInterrupt` on the
same line reuses the registered handle and only increments the count.
`disableInterrupt` decrements the count and releases the GPIO
(unexports) and removes the registration exactly when the count reaches
zero: with a count of 2 — two instances sharing the line — one disable
leaves the line registered at count 1 without unexporting, and the
second disable removes it and unexports. -/
theorem gpio_refcount (reg : List (Nat × Nat)) (line held c : Nat)
    (hnd : (reg.map Prod.fst).Nodup) :
    (enableInterrupt (some held) reg line
        = .error "GPIO interrupt already enabled.") ∧
    (regLookup reg line = none →
        enableInterrupt none reg line = .ok (some line, reg ++ [(line, 1)]) ∧
        regLookup (reg ++ [(line, 1)]) line = some 1) ∧
    (regLookup reg line = some c →
        enableInterrupt none reg line = .ok (some line, regSet reg line (c + 1)) ∧
        regLookup (regSet reg line (c + 1)) line = some (c + 1)) ∧
    (regLookup reg line = some c → 2 ≤ c →
        disableInterrupt (some line) reg = (none, regSet reg line (c - 1), false) ∧
        regLookup (regSet reg line (c - 1)) line = some (c - 1)) ∧
    (regLookup reg line = some 1 →
        disableInterrupt (some line) reg = (none, regRemove reg line, true) ∧
        regLookup (regRemove reg line) line = none) := by
  refine ⟨rfl, ?_, ?_, ?_, ?_⟩
  · intro h
    refine ⟨?_, regLookup_append_fresh reg line h⟩
    show (match regLookup reg line with
        | some c => Except.ok (some line, regSet reg line (c + 1))
        | none => Except.ok (some line, reg ++ [(line, 1)])) = _
    rw [h]
  · intro h
    refine ⟨?_, regLookup_regSet_self reg line (c + 1)⟩
    show (match regLookup reg line with
        | some c => Except.ok (some line, regSet reg line (c + 1))
        | none => Except.ok (some line, reg ++ [(line, 1)])) = _
    rw [h]
  · intro h hc
    refine ⟨?_, regLookup_regSet_self reg line (c - 1)⟩
    show (match regLookup reg line with
        | some c =>
          if c - 1 = 0 then (none, regRemove reg line, true)
          else (none, regSet reg line (c - 1), false)
        | none => (none, reg, false)) = _
    rw [h]
    show (if c - 1 = 0 then (none, regRemove reg line, true)
        else (none, regSet reg line (c - 1), false)) = _
    rw [if_neg (by omega)]
  · intro h
    refine ⟨?_, regLookup_regRemove_self reg line hnd⟩
    show (match regLookup reg line with
        | some c =>
          if c - 1 = 0 then (none, regRemove reg line, true)
          else (none, regSet reg line (c - 1), false)
        | none => (none, reg, false)) = _
    rw [h]
    rfl

/-! ### Concrete instances used to evaluate the theorems -/

/-- An 8-pin instance with every pin assigned as an input. -/
def exInput : ExpanderState :=
  { pins := 8
    directions := List.replicate 8 DIR_IN
    inputPinBitmask := 255
    inputPinBitmaskAssigned := 255
    inverted := 0
    currentState := 0
    currentlyPolling := false
    queuePollCount := 0 }

/-- An 8-pin instance with pins 0 and 1 outputs, pin 2 an input (pin 1
inverted), the remaining pins undefined. -/
def exOutput : ExpanderState :=
  { pins := 8
    directions := [DIR_OUT, DIR_OUT, DIR_IN, DIR_UNDEF, DIR_UNDEF, DIR_UNDEF, DIR_UNDEF, DIR_UNDEF]
    inputPinBitmask := 0xFC
    inputPinBitmaskAssigned := 0x04
    inverted := 2
    currentState := 0
    currentlyPolling := false
    queuePollCount := 0 }

/-- Three units of work for the promise queue: the middle one fails. -/
def exTasks : List (QueuedTask String Nat) :=
  [⟨0, .ok 1⟩, ⟨1, .error "x"⟩, ⟨2, .ok 3⟩]

/-- Concrete run of `poll_diff_update_events`: all-input instance, raw
read 5, nothing suppressed. -/
theorem poll_diff_update_events_witness :
    (exInput.currentlyPolling = false ∧
      exInput.inputPinBitmask < 2 ^ exInput.pins) ∧
    ((poll exInput (.ok 5) none).2.2
        = .ok ((poll exInput (.ok 5) none).1.currentState) ∧
      (∀ p, (poll exInput (.ok 5) none).1.currentState.testBit p
          = if (pollChangedMask exInput 5).testBit p = true
            then ((5 : Nat) ^^^ exInput.inverted).testBit p
            else exInput.currentState.testBit p) ∧
      (∀ p, ¬((poll exInput (.ok 5) none).1.currentState.testBit p
              = exInput.currentState.testBit p)
          ↔ (pollChangedMask exInput 5).testBit p = true) ∧
      (∀ p v, (⟨p, v⟩ : InputEvent) ∈ (poll exInput (.ok 5) none).2.1
          ↔ ((pollChangedMask exInput 5).testBit p = true ∧
              (none : Option Nat) ≠ some p ∧
              v = ((5 : Nat) ^^^ exInput.inverted).testBit p))) :=
  ⟨⟨by decide, by decide⟩,
    poll_diff_update_events exInput 5 none (by decide) (by decide)⟩

/-- Concrete run of `promise_queue_fifo` on three units with the middle
one failing. -/
theorem promise_queue_fifo_witness :
    ((1 < exTasks.length) ∧
      exTasks = [⟨0, .ok 1⟩] ++ (⟨1, .error "x"⟩ : QueuedTask String Nat) :: [⟨2, .ok 3⟩]) ∧
    (((exTasks.foldl (fun st u => (pqEnqueue st u).1)
        { queue := [], working := false, maxQueueLength := none }).queue = exTasks) ∧
      dequeueRun false exTasks = specSerializedTrace exTasks ∧
      dequeueRun true exTasks = [] ∧
      (dequeueRun false exTasks).length = 2 * exTasks.length ∧
      ((dequeueRun false exTasks).get? (2 * 1)
          = some (.start (exTasks.get ⟨1, by decide⟩).id) ∧
        (dequeueRun false exTasks).get? (2 * 1 + 1)
          = some (.deliver (exTasks.get ⟨1, by decide⟩).id
              (exTasks.get ⟨1, by decide⟩).result)) ∧
      dequeueRun false exTasks
        = dequeueRun false [⟨0, .ok 1⟩]
          ++ [.start (⟨1, .error "x"⟩ : QueuedTask String Nat).id,
              .deliver (⟨1, .error "x"⟩ : QueuedTask String Nat).id
                (⟨1, .error "x"⟩ : QueuedTask String Nat).result]
          ++ dequeueRun false [⟨2, .ok 3⟩]) :=
  ⟨⟨by decide, by decide⟩,
    promise_queue_fifo exTasks [⟨0, .ok 1⟩] [⟨2, .ok 3⟩] ⟨1, .error "x"⟩ 1
      (by decide) (by decide)⟩

/-- Concrete run of `poll_queue_bound`: a fresh instance accepts 11 of 12
un-awaited `doPoll` submissions, and an instance already at the bound
rejects immediately. -/
theorem poll_queue_bound_witness :
    (exInput.queuePollCount = 0 ∧
      3 + ({ exInput with queuePollCount := 11 } : ExpanderState).pins
        ≤ ({ exInput with queuePollCount := 11 } : ExpanderState).queuePollCount) ∧
    ((enqueuePollCheck { exInput with queuePollCount := 11 } false
        = .error "Too many polls in queue." ∧
      submitPolls { exInput with queuePollCount := 11 } 1
        = ({ exInput with queuePollCount := 11 },
           [.error "Too many polls in queue."])) ∧
    .error "Too many polls in queue." ∈ (submitPolls exInput (exInput.pins + 4)).2) :=
  ⟨⟨by decide, by decide⟩,
    poll_queue_bound exInput { exInput with queuePollCount := 11 }
      (by decide) (by decide)⟩

/-- `exInput` is well-formed. -/
theorem exInput_wf : WF exInput := by
  unfold WF
  exact ⟨Or.inl rfl, rfl, by decide⟩

/-- `exOutput` is well-formed. -/
theorem exOutput_wf : WF exOutput := by
  unfold WF
  exact ⟨Or.inl rfl, rfl, by decide⟩

/-- A read sequence with two bus failures around one success. -/
def exReads : List (Except String Nat) := [.error "bus", .ok 5, .error "bus"]

/-- Concrete run of `state_write_formula`: `setPin(0, true)` on the
output instance issues exactly the write `(1 XOR 2) OR 0xFC = 255`. -/
theorem state_write_formula_witness :
    (setPin exOutput 0 (some true)
        = .ok ({ exOutput with currentState := 1 }, [.writeState 255])) ∧
    [HwAction.writeState 255]
      = [.writeState ((({ exOutput with currentState := 1 } : ExpanderState).currentState
          ^^^ ({ exOutput with currentState := 1 } : ExpanderState).inverted)
          ||| ({ exOutput with currentState := 1 } : ExpanderState).inputPinBitmask)] :=
  ⟨by decide,
    (state_write_formula exOutput 0 (some true) false true (.inl false)).1
      { exOutput with currentState := 1 } [.writeState 255] (by decide)⟩

/-- Concrete run of `setAllPins_setPin_frame` with the mask 3 on the
output instance. -/
theorem setAllPins_setPin_frame_witness :
    WF exOutput ∧
    ((¬DIR_OUT ∈ exOutput.directions → setAllPins exOutput (.inr 3) = (exOutput, [])) ∧
      (DIR_OUT ∈ exOutput.directions →
        (setAllPins exOutput (.inr 3)).2
          = [.writeState (((setAllPins exOutput (.inr 3)).1.currentState
              ^^^ exOutput.inverted) ||| exOutput.inputPinBitmask)]) ∧
      (∀ p, (setAllPins exOutput (.inr 3)).1.currentState.testBit p
          = if exOutput.directions.getD p DIR_UNDEF = DIR_OUT
            then resolveAllPinsBit (.inr 3) p
            else exOutput.currentState.testBit p) ∧
      (∀ pin vv s2 acts, setPin exOutput pin vv = .ok (s2, acts) →
          ∀ p, exOutput.directions.getD p DIR_UNDEF ≠ DIR_OUT →
            s2.currentState.testBit p = exOutput.currentState.testBit p)) :=
  ⟨exOutput_wf, setAllPins_setPin_frame exOutput (.inr 3) exOutput_wf⟩

/-- Concrete run of `pin_range_and_state_errors` at pin 9 on the 8-pin
output instance. -/
theorem pin_range_and_state_errors_witness :
    WF exOutput ∧
    ((exOutput.pins ≤ 9 →
        inputPin exOutput 9 false = .error "Pin out of range" ∧
        outputPin exOutput 9 false none = .error "Pin out of range" ∧
        setPin exOutput 9 none = .error "Pin out of range." ∧
        getPinValue exOutput 9 = .error "Pin out of range.") ∧
      (9 < exOutput.pins → exOutput.directions.getD 9 DIR_UNDEF ≠ DIR_OUT →
        setPin exOutput 9 none = .error "Pin is not defined as output.")) :=
  ⟨exOutput_wf, pin_range_and_state_errors exOutput 9 none false none exOutput_wf⟩

/-- Concrete run of `failed_polls_recover`: two failing reads around a
successful one leave the instance accepting a fresh poll. -/
theorem failed_polls_recover_witness :
    (exInput.currentlyPolling = false ∧
      exInput.queuePollCount < 3 + exInput.pins) ∧
    ((∀ r : Except String Nat,
        (doPollLifecycle exInput false r none).1.currentlyPolling = false ∧
        (doPollLifecycle exInput false r none).1.queuePollCount
          = exInput.queuePollCount) ∧
      (drainPolls exInput exReads).currentlyPolling = false ∧
      (drainPolls exInput exReads).queuePollCount = exInput.queuePollCount ∧
      enqueuePollCheck (drainPolls exInput exReads) false
        = .ok { drainPolls exInput exReads with
                queuePollCount := (drainPolls exInput exReads).queuePollCount + 1 }) :=
  ⟨⟨by decide, by decide⟩,
    failed_polls_recover exInput exReads (by decide) (by decide)⟩

/-- Concrete run of `init_then_poll_zero`: mask 3, raw read 7, 8 pins. -/
theorem init_then_poll_zero_witness :
    ((3 : Nat) ≤ 2 ^ 8 - 1) ∧ initThenPoll 8 3 7 = .ok 0 :=
  ⟨by decide, init_then_poll_zero 8 3 7 (by decide)⟩

/-- Concrete run of `gpio_refcount` on a line registered with use count
2 (two instances sharing GPIO 17). -/
theorem gpio_refcount_witness :
    (([(17, 2)] : List (Nat × Nat)).map Prod.fst).Nodup ∧
    ((enableInterrupt (some 5) [(17, 2)] 17
        = .error "GPIO interrupt already enabled.") ∧
      (regLookup [(17, 2)] 17 = none →
        enableInterrupt none [(17, 2)] 17
          = .ok (some 17, [(17, 2)] ++ [(17, 1)]) ∧
        regLookup ([(17, 2)] ++ [(17, 1)]) 17 = some 1) ∧
      (regLookup [(17, 2)] 17 = some 2 →
        enableInterrupt none [(17, 2)] 17
          = .ok (some 17, regSet [(17, 2)] 17 (2 + 1)) ∧
        regLookup (regSet [(17, 2)] 17 (2 + 1)) 17 = some (2 + 1)) ∧
      (regLookup [(17, 2)] 17 = some 2 → 2 ≤ 2 →
        disableInterrupt (some 17) [(17, 2)]
          = (none, regSet [(17, 2)] 17 (2 - 1), false) ∧
        regLookup (regSet [(17, 2)] 17 (2 - 1)) 17 = some (2 - 1)) ∧
      (regLookup [(17, 2)] 17 = some 1 →
        disableInterrupt (some 17) [(17, 2)]
          = (none, regRemove [(17, 2)] 17, true) ∧
        regLookup (regRemove [(17, 2)] 17) 17 = none)) :=
  ⟨by decide, gpio_refcount [(17, 2)] 17 5 2 (by decide)⟩

end IOExpanderModel
